import Mathlib

/-!
Shallow embedding of the Terra media player's playback queue controller.

The queue controller lives in `src/services/VideoPlaybackService.ts`
(module-level `queueState` plus the exported operations `setVideoQueue`,
`nextVideo`, `previousVideo`, `jumpToIndex`, `setLoopMode`, `toggleShuffle`,
`clearQueue`, `addToQueue`, `removeFromQueue`, and the queries
`getCurrentVideo`, `hasNextVideo`, `hasPreviousVideo`).  The audio queue
reducers (`setQueue`, `previousTrack`, `setPosition`) live in
`src/store/playbackSlice.ts`.

Modelling choices:
  * JavaScript array indices (which may be `-1`) are modelled as `Int`.
  * `Math.floor(Math.random() * (i + 1))` produces an arbitrary value in
    `[0, i]`; it is modelled by an oracle `js : Nat → Nat` reduced mod
    `i + 1`, so every possible sequence of random draws is represented by
    some oracle.
  * `VideoFile` carries many metadata fields in the source
    (`filePath`, `fileName`, `duration`, ...), but the queue logic reads
    only the `id` field (all `findIndex` comparisons are `v.id === c.id`);
    the other fields are opaque payload never inspected by the controller,
    so a `VideoFile` is modelled by its `id`.
  * Invocations of the `videoChangeCallback` observer are recorded in the
    `notes` field of each operation's result.
-/

namespace Terra

/-- Loop mode, from `src/types/playback.ts`: `'none' | 'all' | 'one'`. -/
inductive LoopMode where
  | none
  | all
  | one
deriving DecidableEq, Repr

/-- A video file, identified by its database id.  The queue controller in
`VideoPlaybackService.ts` inspects only the `id` field of a `VideoFile`
(`findIndex(v => v.id === currentVideo.id)`); every other field is carried
opaquely, so the model keeps just the id. -/
structure VideoFile where
  id : Nat
deriving DecidableEq, Repr

/-- The module-level `queueState` of `VideoPlaybackService.ts`. -/
structure QueueState where
  queue : List VideoFile
  currentIndex : Int
  originalQueue : List VideoFile
  isShuffled : Bool
  loopMode : LoopMode
deriving DecidableEq, Repr

/-- The initial value of `queueState`. -/
def initialState : QueueState :=
  { queue := [], currentIndex := -1, originalQueue := [], isShuffled := false,
    loopMode := LoopMode.none }

/-- Result of a queue operation: the value returned to the caller, the new
queue state, and the list of `videoChangeCallback` invocations (video and
index arguments) the operation performed. -/
structure OpResult where
  ret : Option VideoFile
  state : QueueState
  notes : List (Option VideoFile × Int)
deriving DecidableEq, Repr

/-- `getCurrentVideo`: returns `null` when `currentIndex` is out of range,
otherwise `queue[currentIndex]`. -/
def getCurrentVideo (s : QueueState) : Option VideoFile :=
  if s.currentIndex < 0 ∨ (s.queue.length : Int) ≤ s.currentIndex then Option.none
  else s.queue[s.currentIndex.toNat]?

/-- One JavaScript array-destructuring swap
`[l[i], l[j]] = [l[j], l[i]]`; out-of-range indices leave the list
unchanged (the Fisher–Yates loop below only ever uses in-range indices). -/
def swapIdx (l : List α) (i j : Nat) : List α :=
  match l[i]?, l[j]? with
  | some a, some b => (l.set i b).set j a
  | _, _ => l

/-- The Fisher–Yates loop of `toggleShuffle` (and of the slice helper
`shuffleArray`): iteration counter `n` runs the loop body for
`i = n, n-1, ..., 1`, each time swapping position `i` with the random
position `js i % (i + 1) ∈ [0, i]`. -/
def fyLoop (js : Nat → Nat) : Nat → List α → List α
  | 0, l => l
  | n + 1, l => fyLoop js n (swapIdx l (n + 1) (js (n + 1) % (n + 2)))

/-- `const shuffled = [...queue]; for (let i = len-1; i > 0; i--) ...`:
Fisher–Yates over a copy, driven by the random oracle `js`. -/
def fisherYates (js : Nat → Nat) (l : List α) : List α :=
  fyLoop js (l.length - 1) l

/-- JavaScript `Array.prototype.findIndex`, with the not-found result `-1`
modelled as `Option.none`. -/
def findIndexOpt (p : α → Bool) : List α → Option Nat
  | [] => Option.none
  | a :: l => if p a then some 0 else (findIndexOpt p l).map (· + 1)

/-- `setVideoQueue(videos, startIndex)`: copies `videos` into both queues,
sets `currentIndex = Math.max(0, Math.min(startIndex, videos.length - 1))`,
clears the shuffle flag and notifies with the new current video. -/
def setVideoQueue (videos : List VideoFile) (startIndex : Int) (s : QueueState) : OpResult :=
  let s' : QueueState :=
    { s with queue := videos, originalQueue := videos,
             currentIndex := max 0 (min startIndex ((videos.length : Int) - 1)),
             isShuffled := false }
  { ret := Option.none, state := s', notes := [(getCurrentVideo s', s'.currentIndex)] }

/-- `hasNextVideo()`. -/
def hasNextVideo (s : QueueState) : Bool :=
  if s.loopMode = LoopMode.all then decide (0 < s.queue.length)
  else if s.loopMode = LoopMode.one then true
  else decide (s.currentIndex < (s.queue.length : Int) - 1)

/-- `hasPreviousVideo()`. -/
def hasPreviousVideo (s : QueueState) : Bool :=
  if s.loopMode = LoopMode.all then decide (0 < s.queue.length)
  else if s.loopMode = LoopMode.one then true
  else decide (0 < s.currentIndex)

/-- The common tail of `nextVideo`, `previousVideo` and `jumpToIndex`
once a new index has been chosen: `queueState.currentIndex = newIndex`,
read the (new) current video, notify, and return the video. -/
def applyIndexChange (s : QueueState) (ni : Int) : OpResult :=
  { ret := getCurrentVideo { s with currentIndex := ni },
    state := { s with currentIndex := ni },
    notes := [(getCurrentVideo { s with currentIndex := ni }, ni)] }

/-- `nextVideo()`: empty queue is a no-op returning `null`; loop-one stays
on the same index; otherwise advance, wrapping to `0` under loop-all and
returning `null` (without mutating) at the end of a non-looping queue. -/
def nextVideo (s : QueueState) : OpResult :=
  if s.queue.length = 0 then { ret := Option.none, state := s, notes := [] }
  else if s.loopMode = LoopMode.one then applyIndexChange s s.currentIndex
  else if s.currentIndex < (s.queue.length : Int) - 1 then applyIndexChange s (s.currentIndex + 1)
  else if s.loopMode = LoopMode.all then applyIndexChange s 0
  else { ret := Option.none, state := s, notes := [] }

/-- `previousVideo()`: mirror image of `nextVideo`, wrapping to the last
index under loop-all. -/
def previousVideo (s : QueueState) : OpResult :=
  if s.queue.length = 0 then { ret := Option.none, state := s, notes := [] }
  else if s.loopMode = LoopMode.one then applyIndexChange s s.currentIndex
  else if 0 < s.currentIndex then applyIndexChange s (s.currentIndex - 1)
  else if s.loopMode = LoopMode.all then applyIndexChange s ((s.queue.length : Int) - 1)
  else { ret := Option.none, state := s, notes := [] }

/-- `jumpToIndex(index)`: out-of-range indices return `null` without any
state change or notification; in-range indices set `currentIndex` and
notify. -/
def jumpToIndex (i : Int) (s : QueueState) : OpResult :=
  if i < 0 ∨ (s.queue.length : Int) ≤ i then { ret := Option.none, state := s, notes := [] }
  else applyIndexChange s i

/-- `setLoopMode(mode)`. -/
def setLoopMode (m : LoopMode) (s : QueueState) : QueueState :=
  { s with loopMode := m }

/-- `toggleShuffle()`, driven by the random oracle `js`.  Turning shuffle
on Fisher–Yates-shuffles a copy of the queue, moves the first entry whose
id matches the current video's id to the front when it is not already
there (splice of the duplicate occurrence followed by unshift of the saved
current video), and sets `currentIndex = 0`.  Turning shuffle off restores
`originalQueue` and re-locates the current video by id (falling back to
`0` when the id is absent, only when a current video existed).  Returns
the new `isShuffled` flag. -/
def toggleShuffle (js : Nat → Nat) (s : QueueState) : Bool × QueueState :=
  if !s.isShuffled then
    let c := getCurrentVideo s
    let shuffled := fisherYates js s.queue
    let pinned :=
      match c with
      | Option.none => shuffled
      | some cv =>
        match findIndexOpt (fun v => v.id == cv.id) shuffled with
        | some k => if 0 < k then cv :: shuffled.eraseIdx k else shuffled
        | Option.none => shuffled
    (true, { s with isShuffled := true, queue := pinned, currentIndex := 0 })
  else
    let c := getCurrentVideo s
    let restored := s.originalQueue
    let newIdx : Int :=
      match c with
      | Option.none => s.currentIndex
      | some cv =>
        match findIndexOpt (fun v => v.id == cv.id) restored with
        | some k => (k : Int)
        | Option.none => 0
    (false, { s with isShuffled := false, queue := restored, currentIndex := newIdx })

/-- `clearQueue()`: empties both queues, resets the cursor and shuffle
flag (the loop mode is left untouched) and notifies with `null`. -/
def clearQueue (s : QueueState) : OpResult :=
  { ret := Option.none,
    state := { s with queue := [], originalQueue := [], currentIndex := -1,
                      isShuffled := false },
    notes := [(Option.none, -1)] }

/-- `addToQueue(video)`: pushes onto both queues; `currentIndex` is not
touched. -/
def addToQueue (v : VideoFile) (s : QueueState) : OpResult :=
  { ret := Option.none,
    state := { s with queue := s.queue ++ [v], originalQueue := s.originalQueue ++ [v] },
    notes := [] }

/-- `removeFromQueue(index)`: out-of-range indices are ignored; otherwise
the entry is spliced out of `queue`, the first entry with the same id is
spliced out of `originalQueue`, and `currentIndex` is decremented when the
removal was before it, or clamped to the new last index (with a
notification) when the current entry itself was removed. -/
def removeFromQueue (i : Int) (s : QueueState) : OpResult :=
  if i < 0 ∨ (s.queue.length : Int) ≤ i then { ret := Option.none, state := s, notes := [] }
  else
    match s.queue[i.toNat]? with
    | Option.none => { ret := Option.none, state := s, notes := [] }
    | some removed =>
      let queue' := s.queue.eraseIdx i.toNat
      let orig' :=
        match findIndexOpt (fun v => v.id == removed.id) s.originalQueue with
        | some k => s.originalQueue.eraseIdx k
        | Option.none => s.originalQueue
      if i < s.currentIndex then
        { ret := Option.none,
          state := { s with queue := queue', originalQueue := orig',
                            currentIndex := s.currentIndex - 1 },
          notes := [] }
      else if i = s.currentIndex then
        let newIdx :=
          if (queue'.length : Int) ≤ s.currentIndex then (queue'.length : Int) - 1
          else s.currentIndex
        let s' := { s with queue := queue', originalQueue := orig', currentIndex := newIdx }
        { ret := Option.none, state := s', notes := [(getCurrentVideo s', newIdx)] }
      else
        { ret := Option.none,
          state := { s with queue := queue', originalQueue := orig' }, notes := [] }

/-- Iterated `nextVideo`, following only the state. -/
def nextIter : Nat → QueueState → QueueState
  | 0, s => s
  | n + 1, s => nextIter n (nextVideo s).state

/-- States of the video queue controller reachable from the initial empty
state by any sequence of the public mutating operations. -/
inductive Reachable : QueueState → Prop where
  | init : Reachable initialState
  | setQueue (videos : List VideoFile) (startIndex : Int) {s : QueueState} :
      Reachable s → Reachable (setVideoQueue videos startIndex s).state
  | next {s : QueueState} : Reachable s → Reachable (nextVideo s).state
  | prev {s : QueueState} : Reachable s → Reachable (previousVideo s).state
  | jump (i : Int) {s : QueueState} : Reachable s → Reachable (jumpToIndex i s).state
  | shuffle (js : Nat → Nat) {s : QueueState} : Reachable s → Reachable (toggleShuffle js s).2
  | loop (m : LoopMode) {s : QueueState} : Reachable s → Reachable (setLoopMode m s)
  | clear {s : QueueState} : Reachable s → Reachable (clearQueue s).state
  | add (v : VideoFile) {s : QueueState} : Reachable s → Reachable (addToQueue v s).state
  | remove (i : Int) {s : QueueState} : Reachable s → Reachable (removeFromQueue i s).state

/-- The audio playback state held by the redux slice
`src/store/playbackSlice.ts`, restricted to the fields read or written by
the queue reducers (`currentTrack`, the flags `isPlaying`/`isLoading`,
`duration`, volume and mini-player fields are never consulted by them). -/
structure AudioState where
  queue : List Int
  originalQueue : List Int
  currentIndex : Int
  position : Int
  loopMode : LoopMode
  isShuffle : Bool
deriving DecidableEq, Repr

/-- The slice's `initialState`, restricted to the modelled fields. -/
def audioInitialState : AudioState :=
  { queue := [], originalQueue := [], currentIndex := -1, position := 0,
    loopMode := LoopMode.none, isShuffle := false }

/-- The slice helper `shuffleArray`: the same Fisher–Yates loop over a
copy of the array. -/
def shuffleArray (js : Nat → Nat) (l : List α) : List α :=
  fisherYates js l

/-- The `setQueue` reducer of the slice: installs the queue and
`startIndex ?? 0`; when shuffle is already on and the queue has more than
one entry, re-shuffles with the current track moved to the front.  (In
that branch the source reads `state.queue[state.currentIndex]`, which is
JavaScript `undefined` when the index is out of range; `undefined` cannot
inhabit `List Int`, so the `[undefined, ...shuffled]` corner collapses to
`shuffled` here.  No claim exercises that corner: it requires shuffle
already on with an out-of-range start index.) -/
def audioSetQueue (q : List Int) (startIndex : Option Int) (js : Nat → Nat)
    (s : AudioState) : AudioState :=
  let s1 := { s with queue := q, originalQueue := q, currentIndex := startIndex.getD 0 }
  if s1.isShuffle ∧ 1 < s1.queue.length then
    let currentId : Option Int :=
      if (0 : Int) ≤ s1.currentIndex then s1.queue[s1.currentIndex.toNat]? else Option.none
    let shuffled := shuffleArray js (s1.queue.filter (fun i => !(some i == currentId)))
    match currentId with
    | some cid => { s1 with queue := cid :: shuffled, currentIndex := 0 }
    | Option.none => { s1 with queue := shuffled, currentIndex := 0 }
  else s1

/-- The `setPosition` reducer of the slice. -/
def setPosition (p : Int) (s : AudioState) : AudioState :=
  { s with position := p }

/-- The `previousTrack` reducer of the slice: more than 3000 ms into the
track, restart it (position to `0`, index untouched); otherwise step back,
wrapping to the last index under loop-all. -/
def previousTrack (s : AudioState) : AudioState :=
  if 3000 < s.position then { s with position := 0 }
  else if 0 < s.currentIndex then { s with currentIndex := s.currentIndex - 1 }
  else if s.loopMode = LoopMode.all then { s with currentIndex := (s.queue.length : Int) - 1 }
  else s

/-- Two modelled video files with the same id are equal. -/
theorem VideoFile.eq_of_id_eq {v w : VideoFile} (h : v.id = w.id) : v = w := by
  cases v; cases w; simpa using h

/-- Writing `b` at an in-range position is, up to permutation, removing
the overwritten entry and consing `b`. -/
theorem set_perm (l : List α) (i : Nat) (b : α) (h : i < l.length) :
    (l.set i b).Perm (b :: l.eraseIdx i) := by
  rw [List.set_eq_take_cons_drop b h, List.eraseIdx_eq_take_drop_succ]
  exact List.perm_middle

/-- A list is a permutation of any of its entries consed onto the list
with that entry removed. -/
theorem perm_cons_eraseIdx (l : List α) (i : Nat) (h : i < l.length) :
    l.Perm (l[i] :: l.eraseIdx i) := by
  conv_lhs => rw [← List.take_append_drop i l, List.drop_eq_getElem_cons h]
  rw [List.eraseIdx_eq_take_drop_succ]
  exact List.perm_middle

/-- A destructuring swap permutes the list. -/
theorem swapIdx_perm (l : List α) (i j : Nat) : (swapIdx l i j).Perm l := by
  cases hi : l[i]? with
  | none => simp [swapIdx, hi]
  | some a =>
    cases hj : l[j]? with
    | none => simp [swapIdx, hi, hj]
    | some b =>
      rw [show swapIdx l i j = (l.set i b).set j a by simp [swapIdx, hi, hj]]
      obtain ⟨hi', ha⟩ := List.getElem?_eq_some.mp hi
      obtain ⟨hj', hb⟩ := List.getElem?_eq_some.mp hj
      have hj1 : j < (l.set i b).length := by simpa using hj'
      have e1 : (l.set i b)[j] = b := by
        rw [List.getElem_set]
        split
        · rfl
        · exact hb
      have p2 : (l.set i b).Perm (b :: (l.set i b).eraseIdx j) := by
        have h := perm_cons_eraseIdx (l.set i b) j hj1
        rwa [e1] at h
      have p4 : ((l.set i b).eraseIdx j).Perm (l.eraseIdx i) :=
        (p2.symm.trans (set_perm l i b hi')).cons_inv
      have p5 : l.Perm (a :: l.eraseIdx i) := by
        have h := perm_cons_eraseIdx l i hi'
        rwa [ha] at h
      exact (set_perm (l.set i b) j a hj1).trans ((p4.cons a).trans p5.symm)

/-- The Fisher–Yates loop permutes the list. -/
theorem fyLoop_perm (js : Nat → Nat) (n : Nat) (l : List α) : (fyLoop js n l).Perm l := by
  induction n generalizing l with
  | zero => exact List.Perm.refl l
  | succ n ih => exact (ih _).trans (swapIdx_perm _ _ _)

/-- The Fisher–Yates shuffle permutes the list. -/
theorem fisherYates_perm (js : Nat → Nat) (l : List α) : (fisherYates js l).Perm l :=
  fyLoop_perm js (l.length - 1) l

/-- A found index points at an entry satisfying the predicate. -/
theorem findIndexOpt_eq_some {p : α → Bool} {l : List α} {k : Nat}
    (h : findIndexOpt p l = some k) : ∃ a, l[k]? = some a ∧ p a = true := by
  induction l generalizing k with
  | nil => simp [findIndexOpt] at h
  | cons x t ih =>
    by_cases hx : p x
    · simp [findIndexOpt, hx] at h
      exact h ▸ ⟨x, by simp, hx⟩
    · cases hm : findIndexOpt p t with
      | none => simp [findIndexOpt, hx, hm] at h
      | some m =>
        have hk : k = m + 1 := by
          simp [findIndexOpt, hx, hm] at h
          omega
        obtain ⟨a, ha, hpa⟩ := ih hm
        subst hk
        exact ⟨a, by simpa using ha, hpa⟩

/-- A member satisfying the predicate guarantees `findIndexOpt` succeeds. -/
theorem findIndexOpt_isSome_of_mem {p : α → Bool} {l : List α} {a : α}
    (ha : a ∈ l) (hp : p a = true) : ∃ k, findIndexOpt p l = some k := by
  induction l with
  | nil => simp at ha
  | cons x t ih =>
    by_cases hx : p x
    · exact ⟨0, by simp [findIndexOpt, hx]⟩
    · rcases List.mem_cons.mp ha with rfl | hat
      · exact absurd hp (by simpa using hx)
      · obtain ⟨k, hk⟩ := ih hat
        exact ⟨k + 1, by simp [findIndexOpt, hx, hk]⟩

/-- Erasing at a later position leaves earlier entries in place. -/
theorem getElem?_eraseIdx_of_lt (l : List α) (i j : Nat) (h : j < i) :
    (l.eraseIdx i)[j]? = l[j]? := by
  induction l generalizing i j with
  | nil => simp
  | cons x t ih =>
    cases i with
    | zero => omega
    | succ n =>
      cases j with
      | zero => simp [List.eraseIdx]
      | succ m => simpa [List.eraseIdx] using ih n m (by omega)

/-- Erasing at an earlier position shifts later entries down by one. -/
theorem getElem?_eraseIdx_of_le (l : List α) (i j : Nat) (h : i ≤ j) :
    (l.eraseIdx i)[j]? = l[j + 1]? := by
  induction l generalizing i j with
  | nil => simp
  | cons x t ih =>
    cases i with
    | zero => simp [List.eraseIdx]
    | succ n =>
      cases j with
      | zero => omega
      | succ m => simpa [List.eraseIdx] using ih n m (by omega)

/-- The invariant actually maintained by every reachable queue state: the
cursor never drops below `-1` and never exceeds the last index of a
non-empty queue (on an empty queue it can be `0` as well as `-1`), and the
live queue is always a permutation of the original-order snapshot. -/
def QueueInv (s : QueueState) : Prop :=
  -1 ≤ s.currentIndex ∧ s.currentIndex ≤ max ((s.queue.length : Int) - 1) 0 ∧
    s.queue.Perm s.originalQueue

/-- Unpacking a successful `getCurrentVideo`. -/
theorem getCurrentVideo_eq_some {s : QueueState} {v : VideoFile}
    (h : getCurrentVideo s = some v) :
    0 ≤ s.currentIndex ∧ s.currentIndex < (s.queue.length : Int) ∧
      s.queue[s.currentIndex.toNat]? = some v := by
  unfold getCurrentVideo at h
  split at h
  · simp at h
  · next hc => exact ⟨by omega, by omega, h⟩

/-- The shuffle-on branch of `toggleShuffle`, written as one equation. -/
theorem toggleShuffle_on_eq (js : Nat → Nat) (s : QueueState) (hs : s.isShuffled = false) :
    (toggleShuffle js s).2 =
      { s with isShuffled := true, currentIndex := 0,
               queue :=
                 match getCurrentVideo s with
                 | Option.none => fisherYates js s.queue
                 | some cv =>
                   match findIndexOpt (fun v => v.id == cv.id) (fisherYates js s.queue) with
                   | some k =>
                     if 0 < k then cv :: (fisherYates js s.queue).eraseIdx k
                     else fisherYates js s.queue
                   | Option.none => fisherYates js s.queue } := by
  unfold toggleShuffle
  rw [hs]
  rfl

/-- The shuffle-off branch of `toggleShuffle`, written as one equation. -/
theorem toggleShuffle_off_eq (js : Nat → Nat) (s : QueueState) (hs : s.isShuffled = true) :
    (toggleShuffle js s).2 =
      { s with isShuffled := false, queue := s.originalQueue,
               currentIndex :=
                 match getCurrentVideo s with
                 | Option.none => s.currentIndex
                 | some cv =>
                   match findIndexOpt (fun v => v.id == cv.id) s.originalQueue with
                   | some k => (k : Int)
                   | Option.none => 0 } := by
  unfold toggleShuffle
  rw [hs]
  rfl

/-- Turning shuffle on: the new queue is a permutation of the old one, the
cursor moves to `0`, the snapshot and loop mode are untouched, the flag is
set, and whenever a current video existed it ends up at the head of the
shuffled queue. -/
theorem toggleShuffle_on_spec (js : Nat → Nat) (s : QueueState)
    (hs : s.isShuffled = false) :
    ((toggleShuffle js s).2).queue.Perm s.queue ∧
      ((toggleShuffle js s).2).currentIndex = 0 ∧
      ((toggleShuffle js s).2).originalQueue = s.originalQueue ∧
      ((toggleShuffle js s).2).isShuffled = true ∧
      (∀ v, getCurrentVideo s = some v → ((toggleShuffle js s).2).queue[0]? = some v) := by
  rw [toggleShuffle_on_eq js s hs]
  refine ⟨?_, rfl, rfl, rfl, ?_⟩
  · show (QueueState.queue _).Perm s.queue
    cases hc : getCurrentVideo s with
    | none => exact fisherYates_perm js s.queue
    | some cv =>
      obtain ⟨hge, hlt, hget⟩ := getCurrentVideo_eq_some hc
      have hmem : cv ∈ fisherYates js s.queue :=
        (fisherYates_perm js s.queue).mem_iff.mpr (List.getElem?_mem hget)
      obtain ⟨k, hk⟩ :=
        @findIndexOpt_isSome_of_mem _ (fun v => v.id == cv.id) _ cv hmem (by simp)
      obtain ⟨a, ha, hpa⟩ := findIndexOpt_eq_some hk
      have haeq : a = cv := VideoFile.eq_of_id_eq (by simpa using hpa)
      have hk' : k < (fisherYates js s.queue).length := (List.getElem?_eq_some.mp ha).1
      have hka : (fisherYates js s.queue)[k] = cv := haeq ▸ (List.getElem?_eq_some.mp ha).2
      show (QueueState.queue _).Perm s.queue
      simp only [hk]
      by_cases hk0 : 0 < k
      · rw [if_pos hk0]
        have hpin : (cv :: (fisherYates js s.queue).eraseIdx k).Perm (fisherYates js s.queue) := by
          have h := perm_cons_eraseIdx (fisherYates js s.queue) k hk'
          rw [hka] at h
          exact h.symm
        exact hpin.trans (fisherYates_perm js s.queue)
      · rw [if_neg hk0]
        exact fisherYates_perm js s.queue
  · intro v hv
    rw [hv]
    obtain ⟨hge, hlt, hget⟩ := getCurrentVideo_eq_some hv
    have hmem : v ∈ fisherYates js s.queue :=
      (fisherYates_perm js s.queue).mem_iff.mpr (List.getElem?_mem hget)
    obtain ⟨k, hk⟩ :=
      @findIndexOpt_isSome_of_mem _ (fun w => w.id == v.id) _ v hmem (by simp)
    obtain ⟨a, ha, hpa⟩ := findIndexOpt_eq_some hk
    have haeq : a = v := VideoFile.eq_of_id_eq (by simpa using hpa)
    simp only [hk]
    by_cases hk0 : 0 < k
    · rw [if_pos hk0]
      simp
    · rw [if_neg hk0]
      have hk0' : k = 0 := by omega
      subst hk0'
      rw [haeq] at ha
      exact ha

/-- The invariant holds initially. -/
theorem inv_initial : QueueInv initialState := by
  refine ⟨by norm_num [initialState], by norm_num [initialState], List.Perm.refl _⟩

/-- `setVideoQueue` establishes the invariant on any input. -/
theorem inv_setQueue (videos : List VideoFile) (si : Int) (s : QueueState) :
    QueueInv (setVideoQueue videos si s).state := by
  refine ⟨?_, ?_, List.Perm.refl _⟩
  · dsimp only [setVideoQueue]
    omega
  · dsimp only [setVideoQueue]
    omega

/-- A cursor move within the invariant's window preserves the invariant. -/
theorem inv_applyIndexChange {s : QueueState} (ni : Int)
    (h3 : s.queue.Perm s.originalQueue) (h1 : -1 ≤ ni)
    (h2 : ni ≤ max ((s.queue.length : Int) - 1) 0) :
    QueueInv (applyIndexChange s ni).state :=
  ⟨h1, h2, h3⟩

/-- `nextVideo` preserves the invariant. -/
theorem inv_next {s : QueueState} (h : QueueInv s) : QueueInv (nextVideo s).state := by
  obtain ⟨h1, h2, h3⟩ := h
  unfold nextVideo
  split
  · exact ⟨h1, h2, h3⟩
  · split
    · exact inv_applyIndexChange _ h3 h1 h2
    · split
      · next hlt => exact inv_applyIndexChange _ h3 (by omega) (by omega)
      · split
        · exact inv_applyIndexChange _ h3 (by omega) (by omega)
        · exact ⟨h1, h2, h3⟩

/-- `previousVideo` preserves the invariant. -/
theorem inv_prev {s : QueueState} (h : QueueInv s) : QueueInv (previousVideo s).state := by
  obtain ⟨h1, h2, h3⟩ := h
  unfold previousVideo
  split
  · exact ⟨h1, h2, h3⟩
  · split
    · exact inv_applyIndexChange _ h3 h1 h2
    · split
      · next hgt => exact inv_applyIndexChange _ h3 (by omega) (by omega)
      · split
        · exact inv_applyIndexChange _ h3 (by omega) (by omega)
        · exact ⟨h1, h2, h3⟩

/-- `jumpToIndex` preserves the invariant. -/
theorem inv_jump {s : QueueState} (i : Int) (h : QueueInv s) :
    QueueInv (jumpToIndex i s).state := by
  obtain ⟨h1, h2, h3⟩ := h
  unfold jumpToIndex
  split
  · exact ⟨h1, h2, h3⟩
  · next hc => exact inv_applyIndexChange _ h3 (by omega) (by omega)

/-- `setLoopMode` preserves the invariant. -/
theorem inv_loop {s : QueueState} (m : LoopMode) (h : QueueInv s) :
    QueueInv (setLoopMode m s) := h

/-- `clearQueue` re-establishes the invariant. -/
theorem inv_clear (s : QueueState) : QueueInv (clearQueue s).state := by
  refine ⟨by norm_num [clearQueue], by norm_num [clearQueue], List.Perm.refl _⟩

/-- `addToQueue` preserves the invariant. -/
theorem inv_add {s : QueueState} (v : VideoFile) (h : QueueInv s) :
    QueueInv (addToQueue v s).state := by
  obtain ⟨h1, h2, h3⟩ := h
  refine ⟨h1, ?_, h3.append_right [v]⟩
  simp only [addToQueue, List.length_append, List.length_cons, List.length_nil]
  omega

/-- `toggleShuffle` preserves the invariant. -/
theorem inv_shuffle {s : QueueState} (js : Nat → Nat) (h : QueueInv s) :
    QueueInv (toggleShuffle js s).2 := by
  obtain ⟨h1, h2, h3⟩ := h
  by_cases hs : s.isShuffled
  · cases hc : getCurrentVideo s with
    | none =>
      rw [toggleShuffle_off_eq js s hs, hc]
      have hlen := h3.length_eq
      refine ⟨?_, ?_, List.Perm.refl _⟩
      · dsimp only
        omega
      · dsimp only
        omega
    | some cv =>
      cases hk : findIndexOpt (fun v => v.id == cv.id) s.originalQueue with
      | none =>
        rw [toggleShuffle_off_eq js s hs, hc]
        dsimp only
        rw [hk]
        refine ⟨?_, ?_, List.Perm.refl _⟩
        · dsimp only
          omega
        · dsimp only
          omega
      | some k =>
        obtain ⟨a, ha, hpa⟩ := findIndexOpt_eq_some hk
        have hk' : k < s.originalQueue.length := (List.getElem?_eq_some.mp ha).1
        rw [toggleShuffle_off_eq js s hs, hc]
        dsimp only
        rw [hk]
        refine ⟨?_, ?_, List.Perm.refl _⟩
        · dsimp only
          omega
        · dsimp only
          omega
  · obtain ⟨hperm, hidx, horig, -, -⟩ :=
      toggleShuffle_on_spec js s (by simpa using hs)
    refine ⟨by omega, by omega, ?_⟩
    rw [horig]
    exact hperm.trans h3

/-- `removeFromQueue` preserves the invariant. -/
theorem inv_remove {s : QueueState} (i : Int) (h : QueueInv s) :
    QueueInv (removeFromQueue i s).state := by
  obtain ⟨h1, h2, h3⟩ := h
  unfold removeFromQueue
  split
  · exact ⟨h1, h2, h3⟩
  · next hc =>
    cases hr : s.queue[i.toNat]? with
    | none => exact ⟨h1, h2, h3⟩
    | some removed =>
      have hi' : i.toNat < s.queue.length := (List.getElem?_eq_some.mp hr).1
      have hrm : s.queue[i.toNat] = removed := (List.getElem?_eq_some.mp hr).2
      have hmem : removed ∈ s.originalQueue := h3.mem_iff.mp (List.getElem?_mem hr)
      obtain ⟨k, hk⟩ :=
        @findIndexOpt_isSome_of_mem _ (fun v => v.id == removed.id) _ removed hmem (by simp)
      obtain ⟨a, ha, hpa⟩ := findIndexOpt_eq_some hk
      have hk' : k < s.originalQueue.length := (List.getElem?_eq_some.mp ha).1
      have hao : s.originalQueue[k] = a := (List.getElem?_eq_some.mp ha).2
      have haeq : a = removed := VideoFile.eq_of_id_eq (by simpa using hpa)
      have hperm : (s.queue.eraseIdx i.toNat).Perm (s.originalQueue.eraseIdx k) := by
        have p1 := perm_cons_eraseIdx s.queue i.toNat hi'
        have p2 := perm_cons_eraseIdx s.originalQueue k hk'
        rw [hrm] at p1
        rw [hao, haeq] at p2
        exact (p1.symm.trans (h3.trans p2)).cons_inv
      have hlen : (s.queue.eraseIdx i.toNat).length = s.queue.length - 1 :=
        List.length_eraseIdx_of_lt hi'
      dsimp only
      rw [hk]
      split
      · refine ⟨?_, ?_, ?_⟩ <;> dsimp only
        · omega
        · omega
        · exact hperm
      · split
        · refine ⟨?_, ?_, ?_⟩ <;> dsimp only
          · split <;> omega
          · split <;> omega
          · exact hperm
        · refine ⟨?_, ?_, ?_⟩ <;> dsimp only
          · omega
          · omega
          · exact hperm

/-- Every reachable state satisfies the invariant. -/
theorem reachable_inv {s : QueueState} (h : Reachable s) : QueueInv s := by
  induction h with
  | init => exact inv_initial
  | setQueue videos startIndex _ _ => exact inv_setQueue videos startIndex _
  | next _ ih => exact inv_next ih
  | prev _ ih => exact inv_prev ih
  | jump i _ ih => exact inv_jump i ih
  | shuffle js _ ih => exact inv_shuffle js ih
  | loop m _ ih => exact inv_loop m ih
  | clear _ _ => exact inv_clear _
  | add v _ ih => exact inv_add v ih
  | remove i _ ih => exact inv_remove i ih

/-- C1 (amended).  For every state reachable from the initial empty state
by setQueue/next/previous/jumpToIndex/toggleShuffle/setLoopMode/clear/
addToQueue/removeFromQueue, the cursor satisfies
`-1 ≤ currentIndex ≤ max (items.length - 1) 0`.  The originally claimed
equivalence `currentIndex = -1 ↔ items = []` does not hold: an empty queue
can carry cursor `0` and a non-empty queue can carry cursor `-1`. -/
theorem claim1_reachable_cursor_bounds (s : QueueState) (h : Reachable s) :
    -1 ≤ s.currentIndex ∧ s.currentIndex ≤ max ((s.queue.length : Int) - 1) 0 :=
  ⟨(reachable_inv h).1, (reachable_inv h).2.1⟩

/-- C1 witness: the amended bound, instantiated at a concrete reachable
state. -/
theorem claim1_reachable_cursor_bounds_witness :
    Reachable (setVideoQueue [⟨5⟩, ⟨7⟩] 1 initialState).state ∧
      (-1 ≤ (setVideoQueue [⟨5⟩, ⟨7⟩] 1 initialState).state.currentIndex ∧
        (setVideoQueue [⟨5⟩, ⟨7⟩] 1 initialState).state.currentIndex ≤
          max (((setVideoQueue [⟨5⟩, ⟨7⟩] 1 initialState).state.queue.length : Int) - 1) 0) :=
  ⟨Reachable.setQueue [⟨5⟩, ⟨7⟩] 1 Reachable.init,
   claim1_reachable_cursor_bounds _ (Reachable.setQueue [⟨5⟩, ⟨7⟩] 1 Reachable.init)⟩

/-- C1 counterexample to the claim as stated: `setVideoQueue([], 0)` yields
a reachable state with an empty queue whose cursor is `0` (so neither
`currentIndex < items.length` nor `items = [] → currentIndex = -1` holds),
and `addToQueue` on the initial state yields a reachable state with a
non-empty queue whose cursor is still `-1`. -/
theorem claim1_counterexample :
    (Reachable (setVideoQueue [] 0 initialState).state ∧
      (setVideoQueue [] 0 initialState).state.queue = [] ∧
      (setVideoQueue [] 0 initialState).state.currentIndex ≠ -1 ∧
      ¬((setVideoQueue [] 0 initialState).state.currentIndex <
          ((setVideoQueue [] 0 initialState).state.queue.length : Int))) ∧
    (Reachable (addToQueue ⟨1⟩ initialState).state ∧
      (addToQueue ⟨1⟩ initialState).state.queue ≠ [] ∧
      (addToQueue ⟨1⟩ initialState).state.currentIndex = -1) :=
  ⟨⟨Reachable.setQueue [] 0 Reachable.init, by decide, by decide, by decide⟩,
   ⟨Reachable.add ⟨1⟩ Reachable.init, by decide, by decide⟩⟩

/-- C2 (amended).  `setVideoQueue(videos, startIndex)` installs `videos`
as both `queue` and `originalQueue`, clears the shuffle flag, and sets the
cursor to `startIndex` clamped into `[0, videos.length - 1]` when `videos`
is non-empty — but to `0`, not `-1`, when `videos` is empty (the source
computes `Math.max(0, Math.min(startIndex, -1)) = 0` there). -/
theorem claim2_setQueue_spec (videos : List VideoFile) (si : Int) (s : QueueState) :
    (setVideoQueue videos si s).state.queue = videos ∧
      (setVideoQueue videos si s).state.originalQueue = videos ∧
      (setVideoQueue videos si s).state.isShuffled = false ∧
      (videos ≠ [] →
        (setVideoQueue videos si s).state.currentIndex =
          max 0 (min si ((videos.length : Int) - 1))) ∧
      (videos = [] → (setVideoQueue videos si s).state.currentIndex = 0) := by
  refine ⟨rfl, rfl, rfl, fun _ => rfl, fun hv => ?_⟩
  subst hv
  dsimp only [setVideoQueue]
  simp only [List.length_nil]
  omega

/-- C2 witness: the amended description, instantiated concretely. -/
theorem claim2_setQueue_spec_witness :
    (setVideoQueue [⟨3⟩, ⟨4⟩] 7 initialState).state.queue = [⟨3⟩, ⟨4⟩] ∧
      (setVideoQueue [⟨3⟩, ⟨4⟩] 7 initialState).state.currentIndex =
        max 0 (min 7 ((([⟨3⟩, ⟨4⟩] : List VideoFile).length : Int) - 1)) ∧
      (setVideoQueue ([] : List VideoFile) 7 initialState).state.currentIndex = 0 :=
  ⟨(claim2_setQueue_spec [⟨3⟩, ⟨4⟩] 7 initialState).1,
   (claim2_setQueue_spec [⟨3⟩, ⟨4⟩] 7 initialState).2.2.2.1 (by decide),
   (claim2_setQueue_spec [] 7 initialState).2.2.2.2 rfl⟩

/-- C2 counterexample to the claim as stated: on the empty list the cursor
is set to `0`, not `-1`. -/
theorem claim2_counterexample :
    (setVideoQueue [] 5 initialState).state.queue = [] ∧
      (setVideoQueue [] 5 initialState).state.currentIndex = 0 ∧
      (setVideoQueue [] 5 initialState).state.currentIndex ≠ -1 := by
  refine ⟨by decide, by decide, by decide⟩

/-- C3 (amended).  In every reachable state, `hasNextVideo` is true
exactly when loop mode is All with a non-empty queue, or loop mode is One
(with no non-emptiness requirement: the source returns `true`
unconditionally for One), or the cursor is before the last index;
`hasPreviousVideo` is the mirror image with `0 < currentIndex`. -/
theorem claim3_hasNext_hasPrevious (s : QueueState) (h : Reachable s) :
    (hasNextVideo s = true ↔
      ((s.loopMode = LoopMode.all ∧ s.queue ≠ []) ∨ s.loopMode = LoopMode.one ∨
        s.currentIndex < (s.queue.length : Int) - 1)) ∧
    (hasPreviousVideo s = true ↔
      ((s.loopMode = LoopMode.all ∧ s.queue ≠ []) ∨ s.loopMode = LoopMode.one ∨
        0 < s.currentIndex)) := by
  obtain ⟨h1, h2, -⟩ := reachable_inv h
  have hlp : s.queue ≠ [] ↔ 0 < s.queue.length := List.length_pos.symm
  cases hm : s.loopMode with
  | none =>
    constructor
    · unfold hasNextVideo
      rw [hm, if_neg (by decide), if_neg (by decide)]
      simp only [decide_eq_true_eq]
      constructor
      · intro hlt
        exact Or.inr (Or.inr hlt)
      · rintro (⟨hq, -⟩ | hone | hlt)
        · exact absurd hq (by decide)
        · exact absurd hone (by decide)
        · exact hlt
    · unfold hasPreviousVideo
      rw [hm, if_neg (by decide), if_neg (by decide)]
      simp only [decide_eq_true_eq]
      constructor
      · intro hlt
        exact Or.inr (Or.inr hlt)
      · rintro (⟨hq, -⟩ | hone | hlt)
        · exact absurd hq (by decide)
        · exact absurd hone (by decide)
        · exact hlt
  | all =>
    constructor
    · unfold hasNextVideo
      rw [hm, if_pos rfl]
      simp only [decide_eq_true_eq]
      constructor
      · intro hp
        exact Or.inl ⟨by trivial, hlp.mpr hp⟩
      · rintro (⟨-, hp⟩ | hone | hlt)
        · exact hlp.mp hp
        · exact absurd hone (by decide)
        · omega
    · unfold hasPreviousVideo
      rw [hm, if_pos rfl]
      simp only [decide_eq_true_eq]
      constructor
      · intro hp
        exact Or.inl ⟨by trivial, hlp.mpr hp⟩
      · rintro (⟨-, hp⟩ | hone | hgt)
        · exact hlp.mp hp
        · exact absurd hone (by decide)
        · omega
  | one =>
    constructor
    · unfold hasNextVideo
      rw [hm, if_neg (by decide), if_pos rfl]
      simp
    · unfold hasPreviousVideo
      rw [hm, if_neg (by decide), if_pos rfl]
      simp

/-- C3 witness: the equivalences, instantiated at a concrete reachable
state. -/
theorem claim3_hasNext_hasPrevious_witness :
    Reachable (setVideoQueue [⟨1⟩, ⟨2⟩] 0 initialState).state ∧
      (hasNextVideo (setVideoQueue [⟨1⟩, ⟨2⟩] 0 initialState).state = true ↔
        (((setVideoQueue [⟨1⟩, ⟨2⟩] 0 initialState).state.loopMode = LoopMode.all ∧
            (setVideoQueue [⟨1⟩, ⟨2⟩] 0 initialState).state.queue ≠ []) ∨
          (setVideoQueue [⟨1⟩, ⟨2⟩] 0 initialState).state.loopMode = LoopMode.one ∨
          (setVideoQueue [⟨1⟩, ⟨2⟩] 0 initialState).state.currentIndex <
            ((setVideoQueue [⟨1⟩, ⟨2⟩] 0 initialState).state.queue.length : Int) - 1)) :=
  ⟨Reachable.setQueue [⟨1⟩, ⟨2⟩] 0 Reachable.init,
   (claim3_hasNext_hasPrevious _ (Reachable.setQueue [⟨1⟩, ⟨2⟩] 0 Reachable.init)).1⟩

/-- C3 counterexample to the claim as stated: with loop mode One and an
empty queue (reachable by `setLoopMode` from the initial state),
`hasNextVideo` returns `true` although the claimed condition — (All or
One) with a non-empty queue, or cursor before the last index — is false. -/
theorem claim3_counterexample :
    Reachable (setLoopMode LoopMode.one initialState) ∧
      hasNextVideo (setLoopMode LoopMode.one initialState) = true ∧
      ¬((((setLoopMode LoopMode.one initialState).loopMode = LoopMode.all ∨
            (setLoopMode LoopMode.one initialState).loopMode = LoopMode.one) ∧
          (setLoopMode LoopMode.one initialState).queue ≠ []) ∨
        (setLoopMode LoopMode.one initialState).currentIndex <
          ((setLoopMode LoopMode.one initialState).queue.length : Int) - 1) :=
  ⟨Reachable.loop LoopMode.one Reachable.init, by decide, by decide⟩

/-- A valid cursor always yields a current video. -/
theorem getCurrentVideo_isSome {s : QueueState} (h1 : 0 ≤ s.currentIndex)
    (h2 : s.currentIndex < (s.queue.length : Int)) :
    ∃ v, getCurrentVideo s = some v := by
  unfold getCurrentVideo
  rw [if_neg (by omega)]
  have hlt : s.currentIndex.toNat < s.queue.length := by omega
  exact ⟨_, List.getElem?_eq_getElem hlt⟩

/-- C4 (confirmed).  Turning shuffle on (from a non-shuffled state) with a
non-empty queue and a valid current item produces a queue that is a
permutation of the previous one, with the previously-current item at
index `0`, and sets the cursor to `0`. -/
theorem claim4_shuffle_on (s : QueueState) (js : Nat → Nat)
    (h0 : s.isShuffled = false) (h1 : 0 ≤ s.currentIndex)
    (h2 : s.currentIndex < (s.queue.length : Int)) :
    ((toggleShuffle js s).2).queue.Perm s.queue ∧
      ((toggleShuffle js s).2).queue[0]? = getCurrentVideo s ∧
      ((toggleShuffle js s).2).currentIndex = 0 := by
  obtain ⟨hperm, hidx, -, -, hhead⟩ := toggleShuffle_on_spec js s h0
  obtain ⟨v, hv⟩ := getCurrentVideo_isSome h1 h2
  exact ⟨hperm, by rw [hv]; exact hhead v hv, hidx⟩

/-- C4 witness: a concrete shuffle-on call, with the hypotheses
discharged. -/
theorem claim4_shuffle_on_witness :
    ((toggleShuffle (fun _ => 0) (setVideoQueue [⟨1⟩, ⟨2⟩, ⟨3⟩] 1 initialState).state).2).queue.Perm
        (setVideoQueue [⟨1⟩, ⟨2⟩, ⟨3⟩] 1 initialState).state.queue ∧
      ((toggleShuffle (fun _ => 0) (setVideoQueue [⟨1⟩, ⟨2⟩, ⟨3⟩] 1 initialState).state).2).queue[0]? =
        getCurrentVideo (setVideoQueue [⟨1⟩, ⟨2⟩, ⟨3⟩] 1 initialState).state ∧
      ((toggleShuffle (fun _ => 0) (setVideoQueue [⟨1⟩, ⟨2⟩, ⟨3⟩] 1 initialState).state).2).currentIndex = 0 :=
  claim4_shuffle_on _ _ (by decide) (by decide) (by decide)

/-- C5 (amended).  For a reachable non-shuffled state whose queue equals
its original-order snapshot as a sequence and whose cursor is valid,
toggling shuffle twice (whatever random draws the first toggle uses)
restores the queue exactly and leaves the current item unchanged.  As
originally stated the claim fails: a reachable non-shuffled state need not
have `queue = originalQueue` (removal of a duplicate id diverges them), and
a non-empty queue may have no current item (cursor `-1`). -/
theorem claim5_shuffle_round_trip (s : QueueState) (js1 js2 : Nat → Nat)
    (_hr : Reachable s) (h0 : s.isShuffled = false)
    (heq : s.queue = s.originalQueue) (h1 : 0 ≤ s.currentIndex)
    (h2 : s.currentIndex < (s.queue.length : Int)) :
    ((toggleShuffle js2 (toggleShuffle js1 s).2).2).queue = s.queue ∧
      getCurrentVideo ((toggleShuffle js2 (toggleShuffle js1 s).2).2) = getCurrentVideo s := by
  obtain ⟨cv, hcv⟩ := getCurrentVideo_isSome h1 h2
  obtain ⟨hperm, hidx, horig, hshuf, hhead⟩ := toggleShuffle_on_spec js1 s h0
  have hh := hhead cv hcv
  have hlen1 : (toggleShuffle js1 s).2.queue.length = s.queue.length := hperm.length_eq
  have hg1 : getCurrentVideo (toggleShuffle js1 s).2 = some cv := by
    unfold getCurrentVideo
    rw [hidx, if_neg (by omega)]
    simpa using hh
  have hcvmem : cv ∈ s.originalQueue := by
    rw [← heq]
    exact List.getElem?_mem (getCurrentVideo_eq_some hcv).2.2
  obtain ⟨k, hk⟩ :=
    @findIndexOpt_isSome_of_mem _ (fun v => v.id == cv.id) _ cv hcvmem (by simp)
  obtain ⟨a, ha, hpa⟩ := findIndexOpt_eq_some hk
  have haeq : a = cv := VideoFile.eq_of_id_eq (by simpa using hpa)
  have hk' : k < s.originalQueue.length := (List.getElem?_eq_some.mp ha).1
  rw [toggleShuffle_off_eq js2 _ hshuf, hg1]
  dsimp only
  rw [horig, hk]
  dsimp only
  constructor
  · exact heq.symm
  · rw [hcv]
    unfold getCurrentVideo
    dsimp only
    rw [if_neg (by omega)]
    rw [show ((k : Int)).toNat = k by omega, ha, haeq]

/-- C5 witness: the amended round trip at a concrete reachable state. -/
theorem claim5_shuffle_round_trip_witness :
    Reachable (setVideoQueue [⟨1⟩, ⟨2⟩, ⟨3⟩] 1 initialState).state ∧
      ((toggleShuffle (fun _ => 1)
          (toggleShuffle (fun _ => 0) (setVideoQueue [⟨1⟩, ⟨2⟩, ⟨3⟩] 1 initialState).state).2).2).queue =
        (setVideoQueue [⟨1⟩, ⟨2⟩, ⟨3⟩] 1 initialState).state.queue ∧
      getCurrentVideo ((toggleShuffle (fun _ => 1)
          (toggleShuffle (fun _ => 0) (setVideoQueue [⟨1⟩, ⟨2⟩, ⟨3⟩] 1 initialState).state).2).2) =
        getCurrentVideo (setVideoQueue [⟨1⟩, ⟨2⟩, ⟨3⟩] 1 initialState).state := by
  have hr : Reachable (setVideoQueue [⟨1⟩, ⟨2⟩, ⟨3⟩] 1 initialState).state :=
    Reachable.setQueue [⟨1⟩, ⟨2⟩, ⟨3⟩] 1 Reachable.init
  refine ⟨hr, ?_⟩
  exact claim5_shuffle_round_trip _ (fun _ => 0) (fun _ => 1) hr (by decide) (by decide)
    (by decide) (by decide)

/-- C5 counterexample to the claim as stated: starting from the reachable
non-shuffled state obtained by `setVideoQueue([id 1, id 2, id 1], 0)`
followed by `removeFromQueue(2)` (queue `[1, 2]`, snapshot `[2, 1]`),
toggling shuffle twice with the random draws that happen to pick index `0`
each time leaves the queue as `[2, 1]`, not its pre-shuffle sequence
`[1, 2]`. -/
theorem claim5_counterexample :
    Reachable (removeFromQueue 2 (setVideoQueue [⟨1⟩, ⟨2⟩, ⟨1⟩] 0 initialState).state).state ∧
      (removeFromQueue 2 (setVideoQueue [⟨1⟩, ⟨2⟩, ⟨1⟩] 0 initialState).state).state.isShuffled = false ∧
      (removeFromQueue 2 (setVideoQueue [⟨1⟩, ⟨2⟩, ⟨1⟩] 0 initialState).state).state.queue ≠ [] ∧
      ((toggleShuffle (fun _ => 0)
          (toggleShuffle (fun _ => 0)
            (removeFromQueue 2 (setVideoQueue [⟨1⟩, ⟨2⟩, ⟨1⟩] 0 initialState).state).state).2).2).queue ≠
        (removeFromQueue 2 (setVideoQueue [⟨1⟩, ⟨2⟩, ⟨1⟩] 0 initialState).state).state.queue :=
  ⟨Reachable.remove 2 (Reachable.setQueue [⟨1⟩, ⟨2⟩, ⟨1⟩] 0 Reachable.init),
   by decide, by decide, by decide⟩

/-- C6 (confirmed).  At the last index of a non-empty queue, `nextVideo`
wraps to index `0` under loop-all; under loop-none it returns `null`,
changes nothing, notifies nobody, and `hasNextVideo` is `false`. -/
theorem claim6_wrap_and_stop (s : QueueState) (hne : s.queue ≠ [])
    (hidx : s.currentIndex = (s.queue.length : Int) - 1) :
    (s.loopMode = LoopMode.all → (nextVideo s).state.currentIndex = 0) ∧
      (s.loopMode = LoopMode.none →
        nextVideo s = { ret := Option.none, state := s, notes := [] } ∧
          hasNextVideo s = false) := by
  have hz : ¬(s.queue.length = 0) := fun h => hne (List.length_eq_zero.mp h)
  constructor
  · intro hall
    unfold nextVideo
    rw [if_neg hz, if_neg (by rw [hall]; decide), if_neg (by omega), if_pos hall]
    rfl
  · intro hnone
    constructor
    · unfold nextVideo
      rw [if_neg hz, if_neg (by rw [hnone]; decide), if_neg (by omega),
        if_neg (by rw [hnone]; decide)]
    · unfold hasNextVideo
      rw [if_neg (by rw [hnone]; decide), if_neg (by rw [hnone]; decide)]
      simp only [decide_eq_false_iff_not]
      omega

/-- C6 witness: wraparound at the tail of a concrete two-element loop-all
queue, and the no-op at the tail of the same queue under loop-none. -/
theorem claim6_wrap_and_stop_witness :
    ((setLoopMode LoopMode.all (setVideoQueue [⟨1⟩, ⟨2⟩] 1 initialState).state).loopMode =
        LoopMode.all →
      (nextVideo (setLoopMode LoopMode.all (setVideoQueue [⟨1⟩, ⟨2⟩] 1 initialState).state)).state.currentIndex = 0) ∧
      ((setLoopMode LoopMode.all (setVideoQueue [⟨1⟩, ⟨2⟩] 1 initialState).state).loopMode =
          LoopMode.none →
        nextVideo (setLoopMode LoopMode.all (setVideoQueue [⟨1⟩, ⟨2⟩] 1 initialState).state) =
          { ret := Option.none,
            state := setLoopMode LoopMode.all (setVideoQueue [⟨1⟩, ⟨2⟩] 1 initialState).state,
            notes := [] } ∧
          hasNextVideo (setLoopMode LoopMode.all (setVideoQueue [⟨1⟩, ⟨2⟩] 1 initialState).state) = false) :=
  claim6_wrap_and_stop _ (by decide) (by decide)

/-- Under loop-one with a non-empty queue, one `nextVideo` call leaves the
whole state unchanged. -/
theorem nextVideo_loop_one_fixed (s : QueueState) (h1 : s.loopMode = LoopMode.one)
    (h2 : s.queue ≠ []) : (nextVideo s).state = s := by
  have hz : ¬(s.queue.length = 0) := fun h => h2 (List.length_eq_zero.mp h)
  unfold nextVideo
  rw [if_neg hz, if_pos h1]
  rfl

/-- C7 (confirmed).  Under loop-one with a non-empty queue, any number of
repeated `nextVideo` calls leaves the cursor unchanged. -/
theorem claim7_loop_one_skip (s : QueueState) (n : Nat)
    (h1 : s.loopMode = LoopMode.one) (h2 : s.queue ≠ []) :
    (nextIter n s).currentIndex = s.currentIndex := by
  induction n with
  | zero => rfl
  | succ n ih =>
    show (nextIter n (nextVideo s).state).currentIndex = s.currentIndex
    rw [nextVideo_loop_one_fixed s h1 h2]
    exact ih

/-- C7 witness: five repeated skips on a concrete loop-one queue. -/
theorem claim7_loop_one_skip_witness :
    (nextIter 5 (setLoopMode LoopMode.one (setVideoQueue [⟨1⟩, ⟨2⟩] 0 initialState).state)).currentIndex =
      (setLoopMode LoopMode.one (setVideoQueue [⟨1⟩, ⟨2⟩] 0 initialState).state).currentIndex :=
  claim7_loop_one_skip _ 5 (by decide) (by decide)

/-- C8 (confirmed).  In the audio slice, from the state reached by
`setQueue([a, b, c], 1)`: `previousTrack` with elapsed position above
3000 ms resets the position to `0` and keeps the cursor at `1` (restarting
the second track), while `previousTrack` at position 500 ms moves the
cursor to `0`. -/
theorem claim8_previous_threshold (a b c p : Int) (js : Nat → Nat) (hp : 3000 < p) :
    (previousTrack (setPosition p (audioSetQueue [a, b, c] (some 1) js audioInitialState))).position = 0 ∧
      (previousTrack (setPosition p (audioSetQueue [a, b, c] (some 1) js audioInitialState))).currentIndex = 1 ∧
      (previousTrack (setPosition 500 (audioSetQueue [a, b, c] (some 1) js audioInitialState))).currentIndex = 0 := by
  have hsq : audioSetQueue [a, b, c] (some 1) js audioInitialState =
      { queue := [a, b, c], originalQueue := [a, b, c], currentIndex := 1, position := 0,
        loopMode := LoopMode.none, isShuffle := false } := by
    unfold audioSetQueue audioInitialState
    rw [if_neg (by simp)]
    rfl
  rw [hsq]
  refine ⟨?_, ?_, ?_⟩
  · unfold setPosition previousTrack
    dsimp only
    rw [if_pos hp]
  · unfold setPosition previousTrack
    dsimp only
    rw [if_pos hp]
  · unfold setPosition previousTrack
    dsimp only
    rw [if_neg (by decide), if_pos (by decide)]
    show (1 : Int) - 1 = 0
    decide

/-- C8 witness: concrete track ids and a concrete elapsed position above
the threshold. -/
theorem claim8_previous_threshold_witness :
    (previousTrack (setPosition 3500 (audioSetQueue [10, 20, 30] (some 1) (fun _ => 0) audioInitialState))).position = 0 ∧
      (previousTrack (setPosition 3500 (audioSetQueue [10, 20, 30] (some 1) (fun _ => 0) audioInitialState))).currentIndex = 1 ∧
      (previousTrack (setPosition 500 (audioSetQueue [10, 20, 30] (some 1) (fun _ => 0) audioInitialState))).currentIndex = 0 :=
  claim8_previous_threshold 10 20 30 3500 (fun _ => 0) (by decide)

/-- C9 (confirmed).  `jumpToIndex` with an out-of-range index (negative or
past the end) returns `null`, leaves the state untouched and emits no
notification; with an in-range index it moves the cursor there, returns
the video at that index and notifies once with it. -/
theorem claim9_jump_validation (s : QueueState) (i : Int) :
    ((i < 0 ∨ (s.queue.length : Int) ≤ i) →
      jumpToIndex i s = { ret := Option.none, state := s, notes := [] }) ∧
      (0 ≤ i → i < (s.queue.length : Int) →
        (jumpToIndex i s).state = { s with currentIndex := i } ∧
          (jumpToIndex i s).ret = getCurrentVideo { s with currentIndex := i } ∧
          (jumpToIndex i s).notes = [(getCurrentVideo { s with currentIndex := i }, i)]) := by
  constructor
  · intro hout
    unfold jumpToIndex
    rw [if_pos hout]
  · intro hge hlt
    unfold jumpToIndex
    rw [if_neg (by omega)]
    exact ⟨rfl, rfl, rfl⟩

/-- C9 witness: `jumpToIndex(-1)` and `jumpToIndex(items.length)` are
no-ops on a concrete two-element queue, and `jumpToIndex(1)` moves the
cursor. -/
theorem claim9_jump_validation_witness :
    jumpToIndex (-1) (setVideoQueue [⟨1⟩, ⟨2⟩] 0 initialState).state =
        { ret := Option.none, state := (setVideoQueue [⟨1⟩, ⟨2⟩] 0 initialState).state,
          notes := [] } ∧
      jumpToIndex 2 (setVideoQueue [⟨1⟩, ⟨2⟩] 0 initialState).state =
        { ret := Option.none, state := (setVideoQueue [⟨1⟩, ⟨2⟩] 0 initialState).state,
          notes := [] } ∧
      (jumpToIndex 1 (setVideoQueue [⟨1⟩, ⟨2⟩] 0 initialState).state).state =
        { (setVideoQueue [⟨1⟩, ⟨2⟩] 0 initialState).state with currentIndex := 1 } :=
  ⟨(claim9_jump_validation (setVideoQueue [⟨1⟩, ⟨2⟩] 0 initialState).state (-1)).1 (by decide),
   (claim9_jump_validation (setVideoQueue [⟨1⟩, ⟨2⟩] 0 initialState).state 2).1 (by decide),
   ((claim9_jump_validation (setVideoQueue [⟨1⟩, ⟨2⟩] 0 initialState).state 1).2 (by decide)
      (by decide)).1⟩

/-- C10 (confirmed).  `removeFromQueue` preserves the cursor bound
`-1 ≤ currentIndex < queue.length`: out-of-range removals change nothing;
removing before the cursor decrements it, keeping the same current item;
removing after the cursor leaves both untouched; removing the current
entry clamps the cursor to the new last index, `-1` when the queue becomes
empty. -/
theorem claim10_remove_spec (s : QueueState) (i : Int)
    (hl : -1 ≤ s.currentIndex) (hu : s.currentIndex < (s.queue.length : Int)) :
    (-1 ≤ (removeFromQueue i s).state.currentIndex ∧
      (removeFromQueue i s).state.currentIndex < ((removeFromQueue i s).state.queue.length : Int)) ∧
      ((i < 0 ∨ (s.queue.length : Int) ≤ i) → (removeFromQueue i s).state = s) ∧
      (0 ≤ i → i < s.currentIndex →
        (removeFromQueue i s).state.currentIndex = s.currentIndex - 1 ∧
          getCurrentVideo (removeFromQueue i s).state = getCurrentVideo s) ∧
      (s.currentIndex < i → i < (s.queue.length : Int) →
        (removeFromQueue i s).state.currentIndex = s.currentIndex ∧
          getCurrentVideo (removeFromQueue i s).state = getCurrentVideo s) ∧
      (0 ≤ i → i = s.currentIndex →
        (removeFromQueue i s).state.currentIndex = min s.currentIndex ((s.queue.length : Int) - 2)) := by
  by_cases hout : i < 0 ∨ (s.queue.length : Int) ≤ i
  · have hnoop : removeFromQueue i s = { ret := Option.none, state := s, notes := [] } := by
      unfold removeFromQueue
      rw [if_pos hout]
    rw [hnoop]
    exact ⟨⟨hl, hu⟩, fun _ => rfl, fun hi0 hilt => absurd hout (by omega),
      fun hgt hlt => absurd hout (by omega), fun hi0 hieq => absurd hout (by omega)⟩
  · have hge : 0 ≤ i := by omega
    have hlt : i < (s.queue.length : Int) := by omega
    have hnat : i.toNat < s.queue.length := by omega
    have hr : s.queue[i.toNat]? = some s.queue[i.toNat] := List.getElem?_eq_getElem hnat
    have hlen : (s.queue.eraseIdx i.toNat).length = s.queue.length - 1 :=
      List.length_eraseIdx_of_lt hnat
    unfold removeFromQueue
    rw [if_neg hout, hr]
    dsimp only
    by_cases hA : i < s.currentIndex
    · rw [if_pos hA]
      dsimp only
      refine ⟨⟨by omega, by omega⟩, fun h => absurd h hout, fun _ _ => ⟨rfl, ?_⟩,
        fun hgt _ => absurd hA (by omega), fun _ hieq => absurd hA (by omega)⟩
      unfold getCurrentVideo
      dsimp only
      rw [if_neg (by omega), if_neg (by omega),
        getElem?_eraseIdx_of_le s.queue i.toNat (s.currentIndex - 1).toNat (by omega),
        show (s.currentIndex - 1).toNat + 1 = s.currentIndex.toNat by omega]
    · by_cases hB : i = s.currentIndex
      · rw [if_neg hA, if_pos hB]
        dsimp only
        by_cases hC : ((s.queue.eraseIdx i.toNat).length : Int) ≤ s.currentIndex
        · rw [if_pos hC]
          refine ⟨⟨by omega, by omega⟩, fun h => absurd h hout,
            fun _ h2 => absurd hB (by omega), fun h2 _ => absurd hB (by omega),
            fun _ _ => by omega⟩
        · rw [if_neg hC]
          refine ⟨⟨by omega, by omega⟩, fun h => absurd h hout,
            fun _ h2 => absurd hB (by omega), fun h2 _ => absurd hB (by omega),
            fun _ _ => by omega⟩
      · rw [if_neg hA, if_neg hB]
        dsimp only
        have hBgt : s.currentIndex < i := by omega
        refine ⟨⟨by omega, by omega⟩, fun h => absurd h hout,
          fun _ h2 => absurd hBgt (by omega), fun _ _ => ⟨rfl, ?_⟩,
          fun _ hieq => absurd hBgt (by omega)⟩
        by_cases hneg : s.currentIndex < 0
        · unfold getCurrentVideo
          dsimp only
          rw [if_pos (by omega), if_pos (by omega)]
        · unfold getCurrentVideo
          dsimp only
          rw [if_neg (by omega), if_neg (by omega),
            getElem?_eraseIdx_of_lt s.queue i.toNat s.currentIndex.toNat (by omega)]

/-- C10 witness: removals before, after, and at the cursor of a concrete
three-element queue, plus an out-of-range removal. -/
theorem claim10_remove_spec_witness :
    ((removeFromQueue 5 (setVideoQueue [⟨1⟩, ⟨2⟩, ⟨3⟩] 1 initialState).state).state =
        (setVideoQueue [⟨1⟩, ⟨2⟩, ⟨3⟩] 1 initialState).state) ∧
      ((removeFromQueue 0 (setVideoQueue [⟨1⟩, ⟨2⟩, ⟨3⟩] 1 initialState).state).state.currentIndex =
          (setVideoQueue [⟨1⟩, ⟨2⟩, ⟨3⟩] 1 initialState).state.currentIndex - 1 ∧
        getCurrentVideo (removeFromQueue 0 (setVideoQueue [⟨1⟩, ⟨2⟩, ⟨3⟩] 1 initialState).state).state =
          getCurrentVideo (setVideoQueue [⟨1⟩, ⟨2⟩, ⟨3⟩] 1 initialState).state) ∧
      ((removeFromQueue 1 (setVideoQueue [⟨1⟩, ⟨2⟩, ⟨3⟩] 1 initialState).state).state.currentIndex =
        min (setVideoQueue [⟨1⟩, ⟨2⟩, ⟨3⟩] 1 initialState).state.currentIndex
          (((setVideoQueue [⟨1⟩, ⟨2⟩, ⟨3⟩] 1 initialState).state.queue.length : Int) - 2)) :=
  ⟨(claim10_remove_spec (setVideoQueue [⟨1⟩, ⟨2⟩, ⟨3⟩] 1 initialState).state 5
      (by decide) (by decide)).2.1 (by decide),
   (claim10_remove_spec (setVideoQueue [⟨1⟩, ⟨2⟩, ⟨3⟩] 1 initialState).state 0
      (by decide) (by decide)).2.2.1 (by decide) (by decide),
   (claim10_remove_spec (setVideoQueue [⟨1⟩, ⟨2⟩, ⟨3⟩] 1 initialState).state 1
      (by decide) (by decide)).2.2.2.2 (by decide) (by decide)⟩

end Terra
